import Mathlib

/-!
Verification of the format-normalization core of the financial-data-parser
repository: a shallow embedding of `FormatParser.parse_amount`,
`FormatParser.parse_amount_vectorized`, `FormatParser.parse_date` and
`TypeDetector.detect` / `TypeDetector._try_number`, with theorems settling
the specification claims about them.

Strings are modelled as `List Char`; Python `Decimal` values as exact
rationals extended with the special values NaN / Infinity; calendar dates
by explicit (year, month, day) triples with day-count arithmetic.
-/

/- The Batteries rational-number operations are `@[irreducible]`, which
blocks `decide`-style evaluation of the embedded parsers on concrete
inputs; restore default reducibility locally. -/
attribute [local semireducible] Rat.mul Rat.inv Rat.add Rat.sub Rat.ofScientific

namespace FDP

/-! ### Python character/string primitives -/

/-- Python whitespace (`str.strip`, regex `\s`) restricted to the ASCII
whitespace characters. -/
def isPySpace (c : Char) : Bool :=
  c = ' ' || c = '\t' || c = '\n' || c = '\r' || c = '\x0b' || c = '\x0c'

/-- Python `str.strip()`: drop leading and trailing whitespace. -/
def pyStrip (l : List Char) : List Char :=
  ((l.dropWhile isPySpace).reverse.dropWhile isPySpace).reverse

/-- Numeric value of a list of decimal digit characters (most significant
first), as read by Python `int`. -/
def natOfDigits (l : List Char) : ℕ :=
  l.foldl (fun a c => 10 * a + (c.toNat - '0'.toNat)) 0

/-- Python `str.rfind(c)`: index of the last occurrence of `c`, `-1` when
absent. -/
def pyRfind (c : Char) (s : List Char) : ℤ :=
  match s.reverse.findIdx? (· = c) with
  | some i => (s.length : ℤ) - 1 - i
  | none => -1

/-- Replace the first occurrence of `a` by `b` (Python
`str.replace(a, b, 1)`). -/
def replaceFirst : List Char → Char → Char → List Char
  | [], _, _ => []
  | c :: t, a, b => if c = a then b :: t else c :: replaceFirst t a b

/-- Remove the first `n` occurrences of `'.'`. -/
def removeDots : ℕ → List Char → List Char
  | 0, l => l
  | _ + 1, [] => []
  | n + 1, c :: t => if c = '.' then removeDots n t else c :: removeDots (n + 1) t

/-! ### Python `Decimal` -/

/-- A Python `decimal.Decimal` value: an exact rational, or one of the
special values NaN / plus-or-minus infinity. -/
inductive PyDec where
  | num : ℚ → PyDec
  | nan : PyDec
  | inf : PyDec
  | ninf : PyDec
deriving DecidableEq, Repr

/-- Multiplication of a `Decimal` by an exact nonzero rational scalar
(signs `1`/`-1` and the magnitude multipliers 10^3/10^6/10^9 are the only
scalars the source uses). -/
def PyDec.mulRat (r : ℚ) : PyDec → PyDec
  | .num q => .num (r * q)
  | .nan => .nan
  | .inf => if r < 0 then .ninf else .inf
  | .ninf => if r < 0 then .inf else .ninf

/-- Exact value of an integer part / fractional part digit pair. -/
def decVal (ip fp : List Char) : ℚ :=
  (natOfDigits ip : ℚ) + (natOfDigits fp : ℚ) / (10 : ℚ) ^ fp.length

/-- The numeric-literal part of the `Decimal` string grammar:
`digits* ['.' digits*]` with at least one digit, followed by an optional
exponent `('e'|'E') sign? digits+`. -/
def parseDecNumeric (sgn : ℚ) (r : List Char) : Option PyDec :=
  let ip := r.takeWhile Char.isDigit
  let r1 := r.dropWhile Char.isDigit
  let fpr2 : List Char × List Char :=
    match r1 with
    | '.' :: u => (u.takeWhile Char.isDigit, u.dropWhile Char.isDigit)
    | _ => ([], r1)
  let fp := fpr2.1
  let r2 := if r1.head? = some '.' then fpr2.2 else r1
  if ip.isEmpty && fp.isEmpty then none
  else
    match r2 with
    | [] => some (.num (sgn * decVal ip fp))
    | e :: u =>
      if e = 'e' || e = 'E' then
        let esgnu1 : ℤ × List Char :=
          match u with
          | '+' :: w => (1, w)
          | '-' :: w => (-1, w)
          | _ => (1, u)
        let u1 := esgnu1.2
        if !u1.isEmpty && u1.all Char.isDigit then
          some (.num (sgn * decVal ip fp * (10 : ℚ) ^ (esgnu1.1 * (natOfDigits u1 : ℤ))))
        else none
      else none

/-- Optional sign of the `Decimal` grammar. -/
def pyDecSign (t : List Char) : ℚ × List Char :=
  match t with
  | '+' :: u => (1, u)
  | '-' :: u => (-1, u)
  | _ => (1, t)

/-- Python `Decimal(string)`: leading/trailing whitespace and all
underscores are removed, then the decimal numeric string grammar is
applied (optional sign; numeric literal with optional exponent; or the
case-insensitive special values `nan`/`snan` (with optional digit
payload), `inf`, `infinity`).  `none` models `InvalidOperation`. -/
def pyDecimal (s : List Char) : Option PyDec :=
  let t := (pyStrip s).filter (· ≠ '_')
  let sgnr := pyDecSign t
  let sgn := sgnr.1
  let r := sgnr.2
  let low := r.map Char.toLower
  if low = "inf".data || low = "infinity".data then
    some (if sgn < 0 then .ninf else .inf)
  else if low.take 3 = "nan".data && (low.drop 3).all Char.isDigit then
    some .nan
  else if low.take 4 = "snan".data && (low.drop 4).all Char.isDigit then
    some .nan
  else parseDecNumeric sgn r

/-! ### `FormatParser.parse_amount` (scalar) -/

/-- Error vocabulary of the scalar amount parser: `nullValue` models the
`ValueError` raised on NaN input, `invalidAmount` the `ValueError` raised
when the cleaned string is not `Decimal`-parseable. -/
inductive AmountError where
  | nullValue : AmountError
  | invalidAmount : AmountError
deriving DecidableEq, Repr

/-- Sign handling of `parse_amount` (source lines 28–37): parentheses
wrapping, else trailing minus, else leading minus; the stripped remainder
is re-stripped of whitespace. -/
def stripSign (s : List Char) : ℚ × List Char :=
  if s.head? = some '(' ∧ s.getLast? = some ')' then
    (-1, pyStrip ((s.drop 1).dropLast))
  else if s.getLast? = some '-' then
    (-1, pyStrip s.dropLast)
  else if s.head? = some '-' then
    (-1, pyStrip (s.drop 1))
  else (1, s)

/-- Magnitude multiplier for the K/M/B abbreviation characters. -/
def suffixMult (c : Char) : Option ℚ :=
  if c = 'K' || c = 'k' then some 1000
  else if c = 'M' || c = 'm' then some 1000000
  else if c = 'B' || c = 'b' then some 1000000000
  else none

/-- Tail of the abbreviation regex: `\s*` then the single suffix
character then end of string; on a match, `Decimal(group1) * multiplier`
where `group1 = sgn ++ d1 ++ dfrac`. -/
def suffixFinish (sgn d1 dfrac rest : List Char) : Option PyDec :=
  match rest.dropWhile isPySpace with
  | [c] =>
    match suffixMult c with
    | some m => (pyDecimal (sgn ++ d1 ++ dfrac)).map (PyDec.mulRat m)
    | none => none
  | _ => none

/-- Body of the abbreviation regex after the optional sign:
`\d+(?:\.\d+)?` then the suffix tail. -/
def suffixCore (sgn r0 : List Char) : Option PyDec :=
  let d1 := r0.takeWhile Char.isDigit
  if d1.isEmpty then none
  else
    match r0.dropWhile Char.isDigit with
    | '.' :: t =>
      if (t.takeWhile Char.isDigit).isEmpty then
        suffixFinish sgn d1 [] (r0.dropWhile Char.isDigit)
      else
        suffixFinish sgn d1 ('.' :: t.takeWhile Char.isDigit)
          (t.dropWhile Char.isDigit)
    | _ => suffixFinish sgn d1 [] (r0.dropWhile Char.isDigit)

/-- The abbreviation shortcut of `parse_amount` (source lines 39–43):
`re.fullmatch(r"([+-]?\d+(?:\.\d+)?)\s*([KkMmBb])", s)`, returning
`Decimal(group1) * multiplier` on a match.  Note the source does not
apply the previously computed sign here. -/
def suffixMatch (s : List Char) : Option PyDec :=
  match s with
  | c :: t => if c = '+' || c = '-' then suffixCore [c] t else suffixCore [] (c :: t)
  | [] => suffixCore [] []

/-- Character filter of `re.sub(r"[^\d.,-]", "", s)` (source line 46). -/
def amountClean (s : List Char) : List Char :=
  s.filter fun c => c.isDigit || c = '.' || c = ',' || c = '-'

/-- `re.search(r",\d{1,2}$", s)`: the string ends in a comma followed by
exactly one or two digits. -/
def endsCommaDigits (s : List Char) : Bool :=
  match s.reverse with
  | a :: ',' :: _ => a.isDigit
  | a :: b :: ',' :: _ => a.isDigit && b.isDigit
  | _ => false

/-- Regional separator disambiguation of `parse_amount` (source lines
48–64): with both separators present, compare the `rfind` positions of
the last dot and last comma; with only commas present, a trailing
`,dd`/`,d` pattern makes the **first** comma a decimal point
(`s.replace(',', '.', 1)`), and all remaining commas are removed. -/
def regionalFix (s : List Char) : List Char :=
  if ('.' ∈ s) ∧ (',' ∈ s) then
    if pyRfind '.' s > pyRfind ',' s then
      s.filter (· ≠ ',')
    else
      ((s.filter (· ≠ '.')).map fun c => if c = ',' then '.' else c)
  else if ',' ∈ s then
    (if endsCommaDigits s then replaceFirst s ',' '.' else s).filter (· ≠ ',')
  else s

/-- Malformed multi-dot repair (source lines 67–69): when more than one
dot remains, keep only the last one (`parts[0] + ''.join(parts[1:-1]) +
'.' + parts[-1]`). -/
def dotRepair (s : List Char) : List Char :=
  let n := s.count '.'
  if n > 1 then removeDots (n - 1) s else s

/-- Final step of `parse_amount`: parse the cleaned string as a `Decimal`
and apply the sign; `InvalidOperation` becomes `InvalidAmount`. -/
def amountFinish (sign : ℚ) (s : List Char) : Except AmountError PyDec :=
  match pyDecimal s with
  | some d => .ok (PyDec.mulRat sign d)
  | none => .error .invalidAmount

/-- `FormatParser.parse_amount` (source lines 20–75).  `none` input models
a NaN/null cell. -/
def parse_amount (cell : Option String) : Except AmountError PyDec :=
  match cell with
  | none => .error .nullValue
  | some v =>
    let s0 := pyStrip v.data
    let sr := stripSign s0
    match suffixMatch sr.2 with
    | some d => .ok d
    | none =>
      amountFinish sr.1 (dotRepair (regionalFix (amountClean sr.2)))

/-! ### `FormatParser.parse_amount_vectorized` (batch) -/

/-- The batch parser can abort as a whole: a cleaned element that ends in
K/M/B but contains no `([\d.]+)([KMB])` match makes `str.extract` produce
NaN groups, and `row[1].upper()` then raises an uncaught
`AttributeError`. -/
inductive BatchError where
  | attributeError : BatchError
deriving DecidableEq, Repr

/-- Currency/comma characters removed by
`str.replace(r"[€$₹£¥,]", "", regex=True)` (source line 99). -/
def isCurrencyComma (c : Char) : Bool :=
  c = '€' || c = '$' || c = '₹' || c = '£' || c = '¥' || c = ','

theorem length_dropWhile_le {α : Type} (p : α → Bool) (l : List α) :
    (l.dropWhile p).length ≤ l.length := by
  induction l with
  | nil => simp [List.dropWhile]
  | cons a t ih =>
    by_cases h : p a
    · simp only [List.dropWhile, h]
      exact Nat.le_trans ih (Nat.le_succ _)
    · simp [List.dropWhile, h]

/-- Global `re.sub`-style replacement of `\(([^)]+)\)` by `\1` (source
line 101): each parenthesized chunk with nonempty `)`-free content loses
its parentheses; scanning is left to right. -/
def parenSubAux : ℕ → List Char → List Char
  | 0, l => l
  | _ + 1, [] => []
  | fuel + 1, '(' :: t =>
    match t.dropWhile (· ≠ ')') with
    | ')' :: r =>
      if (t.takeWhile (· ≠ ')')).isEmpty then '(' :: parenSubAux fuel t
      else t.takeWhile (· ≠ ')') ++ parenSubAux fuel r
    | _ => '(' :: t
  | fuel + 1, c :: t => c :: parenSubAux fuel t

def parenSub (l : List Char) : List Char := parenSubAux l.length l

/-- Digit-or-dot characters matched by `[\d.]`. -/
def isNumDot (c : Char) : Bool := c.isDigit || c = '.'

/-- K/M/B suffix characters, case-insensitive (`[KMB]` with `re.I`). -/
def isKMB (c : Char) : Bool :=
  c = 'K' || c = 'k' || c = 'M' || c = 'm' || c = 'B' || c = 'b'

/-- `str.extract(r"([\d.]+)([KMB])", flags=re.I)`: the first (leftmost)
maximal digit-or-dot run immediately followed by a K/M/B character, with
its suffix character; `none` when the pattern matches nowhere. -/
def extractSuffixAux : ℕ → List Char → Option (List Char × Char)
  | 0, _ => none
  | _ + 1, [] => none
  | fuel + 1, c :: t =>
    if isNumDot c then
      match t.dropWhile isNumDot with
      | k :: r =>
        if isKMB k then some (c :: t.takeWhile isNumDot, k)
        else extractSuffixAux fuel (k :: r)
      | [] => none
    else extractSuffixAux fuel t

def extractSuffix (l : List Char) : Option (List Char × Char) :=
  extractSuffixAux l.length l

/-- The per-element cleaning pipeline of `parse_amount_vectorized`
(source lines 88–103): stringify (`NaN → "nan"`), strip, compute the
sign, remove currency symbols and commas, remove whitespace, unwrap
parenthesized chunks, drop a trailing minus after a digit, drop a leading
minus. -/
def vecClean (cell : Option String) : ℚ × List Char :=
  let s := pyStrip (match cell with | none => "nan".data | some v => v.data)
  let sign : ℚ :=
    if (s.head? = some '(' && s.getLast? = some ')') || s.getLast? = some '-'
        || s.head? = some '-' then -1 else 1
  let c := s.filter fun ch => !isCurrencyComma ch
  let c := c.filter fun ch => !isPySpace ch
  let c := parenSub c
  let c :=
    match c.reverse with
    | '-' :: d :: t => if d.isDigit then (d :: t).reverse else c
    | _ => c
  let c := match c with | '-' :: t => t | _ => c
  (sign, c)

/-- `process_standard` (source lines 120–131): the dead regional branches
(commas were already removed by the cleaning), then
`Decimal(val.replace(',', ''))`, with parse failures degraded to null. -/
def processStandard (v : List Char) : Option PyDec :=
  let v1 :=
    if v.count '.' > 1 && decide (',' ∈ v) then
      removeDots (v.count '.' - 1) v
    else if decide (',' ∈ v) && !decide ('.' ∈ v) then
      (if endsCommaDigits v then replaceFirst v ',' '.' else v)
    else v
  pyDecimal (v1.filter (· ≠ ','))

/-- NaN results are converted to null by the final
`Decimal(x) if pd.notna(x) else None` sweep (source line 150). -/
def finalizeVal (d : PyDec) : Option PyDec :=
  match d with
  | .nan => none
  | x => some x

/-- One element of `parse_amount_vectorized`: suffix path for cleaned
strings ending in K/M/B (aborting the whole batch when the extract
pattern finds no groups), standard `Decimal` path otherwise; the sign is
applied and NaN degrades to null. -/
def vecElement (cell : Option String) : Except BatchError (Option PyDec) :=
  let p := vecClean cell
  let masked := match p.2.getLast? with | some k => isKMB k | none => false
  if masked then
    match extractSuffix p.2 with
    | none => .error .attributeError
    | some (num, k) =>
      match pyDecimal num, suffixMult k with
      | some d, some m => .ok (finalizeVal (PyDec.mulRat p.1 (PyDec.mulRat m d)))
      | _, _ => .ok none
  else
    match processStandard p.2 with
    | some d => .ok (finalizeVal (PyDec.mulRat p.1 d))
    | none => .ok none

/-- `FormatParser.parse_amount_vectorized` (source lines 77–150), as the
per-element map it computes; an empty column returns an empty result. -/
def parse_amount_vectorized (col : List (Option String)) :
    Except BatchError (List (Option PyDec)) :=
  if col.isEmpty then .ok [] else col.mapM vecElement

/-! ### Calendar dates -/

/-- A calendar date, as produced by Python `datetime.date`. -/
structure Date where
  year : ℤ
  month : ℕ
  day : ℕ
deriving DecidableEq, Repr

/-- Day count of a civil date in the proleptic Gregorian calendar
(0 = 1970-01-01); standard era/year-of-era arithmetic. -/
def daysFromCivil (y : ℤ) (m d : ℕ) : ℤ :=
  let y2 : ℤ := if m ≤ 2 then y - 1 else y
  let era : ℤ := (if 0 ≤ y2 then y2 else y2 - 399) / 400
  let yoe : ℤ := y2 - era * 400
  let mp : ℤ := ((m : ℤ) + 9) % 12
  let doy : ℤ := (153 * mp + 2) / 5 + (d : ℤ) - 1
  let doe : ℤ := yoe * 365 + yoe / 4 - yoe / 100 + doy
  era * 146097 + doe - 719468

/-- Inverse of `daysFromCivil`. -/
def civilFromDays (z0 : ℤ) : Date :=
  let z : ℤ := z0 + 719468
  let era : ℤ := (if 0 ≤ z then z else z - 146096) / 146097
  let doe : ℤ := z - era * 146097
  let yoe : ℤ := (doe - doe / 1460 + doe / 36524 - doe / 146096) / 365
  let y : ℤ := yoe + era * 400
  let doy : ℤ := doe - (365 * yoe + yoe / 4 - yoe / 100)
  let mp : ℤ := (5 * doy + 2) / 153
  let d : ℤ := doy - (153 * mp + 2) / 5 + 1
  let m : ℤ := if mp < 10 then mp + 3 else mp - 9
  ⟨(if m ≤ 2 then y + 1 else y), m.toNat, d.toNat⟩

/-- Gregorian leap-year test. -/
def isLeap (y : ℤ) : Bool := y % 4 = 0 && (y % 100 ≠ 0 || y % 400 = 0)

/-- Length of a month (Python `datetime` validity bound). -/
def daysInMonth (y : ℤ) (m : ℕ) : ℕ :=
  if m = 2 then (if isLeap y then 29 else 28)
  else if m = 4 || m = 6 || m = 9 || m = 11 then 30
  else 31

/-- `datetime(y, m, d)` validity: Python `datetime` supports years 1–9999
and checks the day against the month length (`ValueError` otherwise). -/
def mkDate (y : ℤ) (m d : ℕ) : Option Date :=
  if 1 ≤ y ∧ y ≤ 9999 ∧ 1 ≤ m ∧ m ≤ 12 ∧ 1 ≤ d ∧ d ≤ daysInMonth y m then
    some ⟨y, m, d⟩
  else none

/-! ### `FormatParser.parse_date` -/

/-- How a `parse_date` call can fail: `nullValue` and `invalidDate` are
the documented `ValueError`s; `overflow` models the uncaught
`OverflowError` of `epoch + timedelta(days=serial)` for in-range years
beyond `datetime.max`; `keyError` the uncaught `KeyError` of the
quarter-to-month dictionary lookup; `invalidYear` the uncaught
`ValueError` of `datetime(year, ...)` for year 0 in the `Quarter` rule. -/
inductive DateError where
  | nullValue : DateError
  | invalidDate : DateError
  | overflow : DateError
  | keyError : DateError
  | invalidYear : DateError
deriving DecidableEq, Repr

/-- Outcome of `parse_date`: a date, an error, or one of two symbolic
delegations to arithmetic outside the exact embedding.  `genericParse`
is the pandas fallback `pd.to_datetime(s)` on the whole (stripped)
string.  `fractionalSerial` is the serial branch on a serial with a
fractional part: the source computes
`(epoch + timedelta(days=float(s))).date()`, whose outcome for
non-integer serials is decided by IEEE-754 binary64 rounding of
`float(s)` and the microsecond rounding inside `timedelta` — sub-day
fractions are normally truncated away, but a fraction close enough to 1
(e.g. `"1.99999999999999999"`, whose `float` is exactly 2.0) is carried
to the next day.  That floating-point arithmetic is kept symbolic, like
the pandas fallback. -/
inductive DateOutcome where
  | ok : Date → DateOutcome
  | error : DateError → DateOutcome
  | genericParse : String → DateOutcome
  | fractionalSerial : String → DateOutcome
deriving DecidableEq, Repr

/-- `re.fullmatch(r"\d+(?:\.\d+)?", s)`. -/
def serialMatch (s : List Char) : Bool :=
  let a := s.takeWhile Char.isDigit
  let r := s.dropWhile Char.isDigit
  !a.isEmpty &&
    (r.isEmpty ||
      (match r with
       | '.' :: t => !t.isEmpty && t.all Char.isDigit
       | _ => false))

/-- Day number of the Excel epoch `1899-12-30`. -/
def epochDays : ℤ := daysFromCivil 1899 12 30

/-- Largest day number `datetime` can represent (`9999-12-31`). -/
def maxDays : ℤ := daysFromCivil 9999 12 31

/-- Quarter-to-month dictionary `{1: 1, 2: 4, 3: 7, 4: 10}`; `none`
models the `KeyError` for any other key. -/
def quarterMonth (q : ℕ) : Option ℕ :=
  if q = 1 then some 1
  else if q = 2 then some 4
  else if q = 3 then some 7
  else if q = 4 then some 10
  else none

/-- `re.fullmatch(r"Q(\d)[- ]*(\d{2,4})", s, flags=re.I)`: quarter digit
and year value. -/
def quarterQ (s : List Char) : Option (ℕ × ℕ) :=
  match s with
  | c :: q :: rest =>
    if (c = 'Q' || c = 'q') && q.isDigit then
      let yr := rest.dropWhile fun ch => ch = '-' || ch = ' '
      if !yr.isEmpty && yr.all Char.isDigit && 2 ≤ yr.length && yr.length ≤ 4 then
        some (q.toNat - '0'.toNat, natOfDigits yr)
      else none
    else none
  | _ => none

/-- `re.fullmatch(r"Quarter\s+(\d)\s+(\d{4})", s, flags=re.I)`. -/
def quarterWord (s : List Char) : Option (ℕ × ℕ) :=
  if (s.take 7).map Char.toLower = "quarter".data ∧ 7 ≤ s.length then
    let r := s.drop 7
    let r1 := r.dropWhile isPySpace
    if r1.length = r.length then none
    else
      match r1 with
      | q :: r2 =>
        if q.isDigit then
          let r3 := r2.dropWhile isPySpace
          if r3.length = r2.length then none
          else if r3.length = 4 && r3.all Char.isDigit then
            some (q.toNat - '0'.toNat, natOfDigits r3)
          else none
        else none
      | [] => none
  else none

/-- `strptime` `%d` field: one digit `1-9` or two digits `01`–`31`. -/
def dayField (s : List Char) : Option ℕ :=
  if s.all Char.isDigit then
    let v := natOfDigits s
    if (s.length = 1 ∧ 1 ≤ v) ∨ (s.length = 2 ∧ 1 ≤ v ∧ v ≤ 31) then some v
    else none
  else none

/-- `strptime` `%m` field: one digit `1-9` or two digits `01`–`12`. -/
def monthField (s : List Char) : Option ℕ :=
  if s.all Char.isDigit then
    let v := natOfDigits s
    if (s.length = 1 ∧ 1 ≤ v) ∨ (s.length = 2 ∧ 1 ≤ v ∧ v ≤ 12) then some v
    else none
  else none

/-- `strptime` `%Y` field: exactly four digits. -/
def year4Field (s : List Char) : Option ℤ :=
  if s.length = 4 ∧ s.all Char.isDigit then some (natOfDigits s : ℤ) else none

/-- `strptime` `%y` field: exactly two digits; `00`–`68` map to
`2000`–`2068`, `69`–`99` to `1969`–`1999`. -/
def year2Field (s : List Char) : Option ℤ :=
  if s.length = 2 ∧ s.all Char.isDigit then
    let v := natOfDigits s
    some (if v ≤ 68 then (2000 + v : ℤ) else (1900 + v : ℤ))
  else none

/-- `%b` month abbreviations of the C locale, lowercased. -/
def monthAbbrevs : List (List Char × ℕ) :=
  [("jan".data, 1), ("feb".data, 2), ("mar".data, 3), ("apr".data, 4),
   ("may".data, 5), ("jun".data, 6), ("jul".data, 7), ("aug".data, 8),
   ("sep".data, 9), ("oct".data, 10), ("nov".data, 11), ("dec".data, 12)]

/-- `%B` full month names of the C locale, lowercased. -/
def monthFulls : List (List Char × ℕ) :=
  [("january".data, 1), ("february".data, 2), ("march".data, 3),
   ("april".data, 4), ("may".data, 5), ("june".data, 6), ("july".data, 7),
   ("august".data, 8), ("september".data, 9), ("october".data, 10),
   ("november".data, 11), ("december".data, 12)]

/-- Case-insensitive month-name lookup (the name must match a whole
separator-delimited token). -/
def monthName (tbl : List (List Char × ℕ)) (s : List Char) : Option ℕ :=
  (tbl.find? fun p => p.1 = s.map Char.toLower).map (·.2)

/-- `D<sep>M<sep>Y` numeric formats (`%d/%m/%Y`). -/
def fmtDMY (sep : Char) (s : List Char) : Option Date :=
  match s.splitOn sep with
  | [d, m, y] =>
    match dayField d, monthField m, year4Field y with
    | some dv, some mv, some yv => mkDate yv mv dv
    | _, _, _ => none
  | _ => none

/-- `M<sep>D<sep>Y` numeric formats (`%m/%d/%Y`). -/
def fmtMDY (sep : Char) (s : List Char) : Option Date :=
  match s.splitOn sep with
  | [m, d, y] =>
    match dayField d, monthField m, year4Field y with
    | some dv, some mv, some yv => mkDate yv mv dv
    | _, _, _ => none
  | _ => none

/-- `%Y-%m-%d` (ISO). -/
def fmtYMD (s : List Char) : Option Date :=
  match s.splitOn '-' with
  | [y, m, d] =>
    match year4Field y, monthField m, dayField d with
    | some yv, some mv, some dv => mkDate yv mv dv
    | _, _, _ => none
  | _ => none

/-- `%d-<month name>-<year>` formats, parameterized by the name table and
the year field. -/
def fmtDnameY (tbl : List (List Char × ℕ)) (yf : List Char → Option ℤ)
    (s : List Char) : Option Date :=
  match s.splitOn '-' with
  | [d, mn, y] =>
    match dayField d, monthName tbl mn, yf y with
    | some dv, some mv, some yv => mkDate yv mv dv
    | _, _, _ => none
  | _ => none

/-- Tokens of a string split on runs of whitespace (`\s+` between format
fields). -/
def wsTokens (s : List Char) : List (List Char) :=
  (s.splitOn ' ').filter (· ≠ [])

/-- `<month name> %Y` formats (`%b %Y`, `%B %Y`): day defaults to 1. -/
def fmtNameY (tbl : List (List Char × ℕ)) (s : List Char) : Option Date :=
  match wsTokens s with
  | [mn, y] =>
    match monthName tbl mn, year4Field y with
    | some mv, some yv => mkDate yv mv 1
    | _, _ => none
  | _ => none

/-- The ordered literal-format list of `parse_date` (source lines
183–197): first format that parses the whole string wins. -/
def strptimeList (s : List Char) : Option Date :=
  (fmtDMY '/' s).orElse fun _ =>
  (fmtMDY '/' s).orElse fun _ =>
  (fmtYMD s).orElse fun _ =>
  (fmtDnameY monthAbbrevs year4Field s).orElse fun _ =>
  (fmtDnameY monthFulls year4Field s).orElse fun _ =>
  (fmtNameY monthAbbrevs s).orElse fun _ =>
  (fmtNameY monthFulls s).orElse fun _ =>
  (fmtDnameY monthAbbrevs year2Field s).orElse fun _ =>
  (fmtDnameY monthFulls year2Field s)

/-- `FormatParser.parse_date` (source lines 153–203): Excel serial,
`Q...` quarter, `Quarter ...` quarter, literal format list, then the
pandas fallback (kept symbolic as `genericParse`).

The serial branch computes `(epoch + timedelta(days=float(s))).date()`.
For a pure-digit serial this embedding is exact: every value up to
2958465 (the offset of `datetime.max`'s date, `9999-12-31`) is far below
2^53, so `float(s)` is exact, `timedelta` of an integer-valued float
involves no sub-day rounding, and the sum is `epoch + value` days; every
pure-digit value above 2958465 ends in an uncaught `OverflowError`
(from the `datetime` addition, from `timedelta.max`, or from
`timedelta(days=inf)`), and binary64 rounding cannot move a value across
that boundary because all integers below 2^53 are representable.  A
serial with a fractional part is handed to the symbolic
`fractionalSerial` outcome (see `DateOutcome`). -/
def parse_date (cell : Option String) : DateOutcome :=
  match cell with
  | none => .error .nullValue
  | some v =>
    let s := pyStrip v.data
    if serialMatch s then
      if (s.dropWhile Char.isDigit).isEmpty then
        let i := natOfDigits (s.takeWhile Char.isDigit)
        if epochDays + (i : ℤ) ≤ maxDays then
          .ok (civilFromDays (epochDays + (i : ℤ)))
        else .error .overflow
      else .fractionalSerial (String.mk s)
    else
      match quarterQ s with
      | some (q, yr) =>
        match quarterMonth q with
        | some mo => .ok ⟨(if yr < 100 then (yr : ℤ) + 2000 else (yr : ℤ)), mo, 1⟩
        | none => .error .keyError
      | none =>
        match quarterWord s with
        | some (q, yr) =>
          match quarterMonth q with
          | some mo =>
            if 1 ≤ yr then .ok ⟨(yr : ℤ), mo, 1⟩ else .error .invalidYear
          | none => .error .keyError
        | none =>
          match strptimeList s with
          | some d => .ok d
          | none => .genericParse (String.mk s)

/-! ### `TypeDetector` -/

/-- Global `re.sub`-style replacement of `\(([^)]+)\)` by `-\1` (source
line 130 of `type_detector.py`): parenthesized chunks become negated. -/
def parenSubNegAux : ℕ → List Char → List Char
  | 0, l => l
  | _ + 1, [] => []
  | fuel + 1, '(' :: t =>
    match t.dropWhile (· ≠ ')') with
    | ')' :: r =>
      if (t.takeWhile (· ≠ ')')).isEmpty then '(' :: parenSubNegAux fuel t
      else '-' :: t.takeWhile (· ≠ ')') ++ parenSubNegAux fuel r
    | _ => '(' :: t
  | fuel + 1, c :: t => c :: parenSubNegAux fuel t

def parenSubNeg (l : List Char) : List Char := parenSubNegAux l.length l

/-- The cleaning pipeline of `TypeDetector._try_number` (source lines
122–131): strip currency symbols and commas, strip whitespace, rewrite
`(x)` to `-x`, and rewrite a trailing `d-` to `-d` — note the
replacement `re.sub(r"(\d)-$", r"-\1", s)` moves only the final digit,
turning `1234-` into `123-4`. -/
def tdClean (s : List Char) : List Char :=
  let c := s.filter fun ch => !isCurrencyComma ch
  let c := c.filter fun ch => !isPySpace ch
  let c := parenSubNeg c
  match c.reverse with
  | '-' :: d :: t => if d.isDigit then (d :: '-' :: t).reverse else c
  | _ => c

/-- `re.match(r"^([+-]?\d+\.?\d*)([KkMmBb])$", x)`: abbreviated-amount
token of `_try_number`. -/
def tdSuffixPat (x : List Char) : Bool :=
  let r0 := match x with
    | c :: t => if c = '+' || c = '-' then t else x
    | [] => []
  let d1 := r0.takeWhile Char.isDigit
  let r1 := r0.dropWhile Char.isDigit
  if d1.isEmpty then false
  else
    let r2 := match r1 with
      | '.' :: t => t.dropWhile Char.isDigit
      | _ => r1
    match r2 with
    | [k] => isKMB k
    | _ => false

/-- One value parses as numeric-looking in `_try_number`: the K/M/B
pattern, or `Decimal(x)` succeeding. -/
def tdParse (x : List Char) : Bool :=
  tdSuffixPat x || (pyDecimal x).isSome

/-- `TypeDetector.MIN_CONFIDENCE`. -/
def MIN_CONFIDENCE : ℚ := 3 / 5

/-- `TypeDetector._try_number` (source lines 120–151) over the non-null
cells of a column (already stringified): success flag and confidence
(`success_mask.mean()`, the fraction of values whose cleaned form
parses). -/
def try_number (s : List String) : Bool × ℚ :=
  let conf : ℚ :=
    if s.length = 0 then 0
    else ((s.filter fun x => tdParse (tdClean x.data)).length : ℚ) / (s.length : ℚ)
  (decide (conf ≥ MIN_CONFIDENCE), conf)

/-- `TypeDetector.detect` (source lines 41–63).  The temporal attempt
`_try_datetime` is dominated by `pandas.to_datetime` (external code) and
is abstracted as a parameter; every claim settled here is independent of
it or quantifies over it. -/
def detect (tryDatetime : List String → Bool × ℚ) (col : List (Option String)) :
    String × ℚ :=
  let s := col.filterMap id
  if s.isEmpty then ("str", 1)
  else
    let dt := tryDatetime s
    if dt.1 then ("datetime", dt.2)
    else
      let nm := try_number s
      if nm.1 then ("number", nm.2) else ("str", 1)

/-- The intermediate string of `parse_amount` after sign handling and
the character strip of source line 46 (the value of the local `s` at that
point of the routine). -/
def cleanedAmount (v : String) : List Char :=
  amountClean (stripSign (pyStrip v.data)).2

instance {ε α : Type} [DecidableEq ε] [DecidableEq α] : DecidableEq (Except ε α) :=
  fun a b =>
    match a, b with
    | .error e, .error f =>
      match decEq e f with
      | isTrue h => isTrue (h ▸ rfl)
      | isFalse h => isFalse fun hh => by cases hh; exact h rfl
    | .ok x, .ok y =>
      match decEq x y with
      | isTrue h => isTrue (h ▸ rfl)
      | isFalse h => isFalse fun hh => by cases hh; exact h rfl
    | .error _, .ok _ => isFalse fun hh => by cases hh
    | .ok _, .error _ => isFalse fun hh => by cases hh

/-! ## Helper lemmas -/

theorem ne_of_isDigit {c x : Char} (h : c.isDigit = true)
    (hx : x.isDigit = false) : c ≠ x := by
  intro he
  rw [he, hx] at h
  cases h

theorem dropWhile_eq_self_of_head {p : Char → Bool} :
    ∀ {l : List Char}, (∀ c, l.head? = some c → p c = false) →
      l.dropWhile p = l
  | [], _ => rfl
  | c :: t, h => by
    have hc := h c rfl
    simp [List.dropWhile_cons, hc]

theorem pyStrip_eq_self {l : List Char}
    (h1 : ∀ c, l.head? = some c → isPySpace c = false)
    (h2 : ∀ c, l.getLast? = some c → isPySpace c = false) :
    pyStrip l = l := by
  unfold pyStrip
  rw [dropWhile_eq_self_of_head h1]
  rw [dropWhile_eq_self_of_head (by simpa using h2)]
  exact l.reverse_reverse

theorem serialMatch_false_of_head {c : Char} {t : List Char}
    (h : c.isDigit = false) : serialMatch (c :: t) = false := by
  unfold serialMatch
  rw [List.takeWhile_cons_of_neg (by simp [h])]
  rfl

/-! ## Claims -/

/-- **C1.** The batch amount parser is claimed elementwise equivalent to
the scalar parser.  It is not: the vectorized pipeline removes every
comma *before* regional separator disambiguation (its own comma-handling
branches are dead code), so the European-format cell `"€1.234,56"`
parses to `1234.56` on the scalar path but to `1.23456 = 123456/100000`
on the batch path. -/
theorem parseAmountBatch_diverges_from_scalar :
    parse_amount (some "€1.234,56") = .ok (.num (123456 / 100 : ℚ)) ∧
    parse_amount_vectorized [some "€1.234,56"] =
      .ok [some (.num (123456 / 100000 : ℚ))] := by
  constructor <;> decide

/-- **C3.** For a comma-only amount ending in a comma plus 1–2 digits the
claim (and the source's own comment, "Replace only the last comma") says
the *last* comma becomes the decimal point, so `"1,234,56"` should parse
to `1234.56`.  The code executes `s.replace(',', '.', 1)`, which
replaces the *first* comma, producing `1.23456`. -/
theorem parseAmount_comma_decimal_replaces_first_comma :
    parse_amount (some "1,234,56") = .ok (.num (123456 / 100000 : ℚ)) ∧
    regionalFix "1,234,56".data = "1.23456".data := by
  constructor <;> decide

/-- **C6 (counterexample).** The claim quantifies over *every* pure-digit
string, but a serial beyond `datetime.max` (`9999-12-31`, day offset
2958465 from the epoch) makes `epoch + timedelta(days=serial)` raise an
uncaught `OverflowError` instead of returning a calendar date. -/
theorem parseDate_serial_overflows_datetime_range :
    parse_date (some "99999999") = .error .overflow := by
  decide


theorem isPySpace_eq_false_of_isDigit {c : Char} (h : c.isDigit = true) :
    isPySpace c = false := by
  unfold isPySpace
  have h1 := ne_of_isDigit h (x := ' ') (by decide)
  have h2 := ne_of_isDigit h (x := '\t') (by decide)
  have h3 := ne_of_isDigit h (x := '\n') (by decide)
  have h4 := ne_of_isDigit h (x := '\r') (by decide)
  have h5 := ne_of_isDigit h (x := '\x0b') (by decide)
  have h6 := ne_of_isDigit h (x := '\x0c') (by decide)
  simp [h1, h2, h3, h4, h5, h6]

theorem mem_of_getLast?_eq {l : List Char} {a : Char}
    (h : l.getLast? = some a) : a ∈ l := by
  rcases List.mem_getLast?_eq_getLast (by simpa using h) with ⟨hne, heq⟩
  rw [heq]
  exact List.getLast_mem hne

theorem pyStrip_eq_self_of_all {l : List Char}
    (h : ∀ c ∈ l, isPySpace c = false) : pyStrip l = l := by
  apply pyStrip_eq_self
  · intro c hc
    apply h
    cases l with
    | nil => cases hc
    | cons a t =>
      simp only [List.head?_cons, Option.some_inj] at hc
      rw [← hc]
      exact List.mem_cons_self a t
  · intro c hc
    exact h c (mem_of_getLast?_eq hc)

/-- **C6 (amended).** For every pure-digit string (no fractional part)
whose value is at most 2958465 (the day offset of `9999-12-31` from the
Excel epoch), `parse_date` returns the date obtained by adding that many
days to `1899-12-30`; a serial carrying a fractional part is resolved by
the serial branch through `float(s)` and `timedelta`, whose sub-day
rounding lies outside the exact embedding and is kept symbolic (sub-day
fractions are normally truncated, but IEEE-754/`timedelta` rounding can
carry a fraction close enough to 1 into the next day); and
`parse_date "44927"` equals `parse_date "2023-01-01"`. -/
theorem parseDate_excel_serial_from_epoch :
    (∀ ip : List Char, ip ≠ [] → (∀ c ∈ ip, c.isDigit = true) →
      natOfDigits ip ≤ 2958465 →
      parse_date (some (String.mk ip)) =
        .ok (civilFromDays (daysFromCivil 1899 12 30 + (natOfDigits ip : ℤ)))) ∧
    (∀ ip fr : List Char, ip ≠ [] → fr ≠ [] →
      (∀ c ∈ ip, c.isDigit = true) → (∀ c ∈ fr, c.isDigit = true) →
      parse_date (some (String.mk (ip ++ '.' :: fr))) =
        .fractionalSerial (String.mk (ip ++ '.' :: fr))) ∧
    parse_date (some "44927") = parse_date (some "2023-01-01") := by
  refine ⟨?_, ?_, by decide⟩
  · intro ip hne hdig hle
    have hstrip : pyStrip ip = ip :=
      pyStrip_eq_self_of_all fun c hc => isPySpace_eq_false_of_isDigit (hdig c hc)
    have htake : ip.takeWhile Char.isDigit = ip :=
      List.takeWhile_eq_self_iff.mpr (by simpa using hdig)
    have hdrop : ip.dropWhile Char.isDigit = [] :=
      List.dropWhile_eq_nil_iff.mpr (by simpa using hdig)
    have hser : serialMatch ip = true := by
      simp [serialMatch, htake, hdrop, hne]
    have hdata : (String.mk ip).data = ip := rfl
    have hb : epochDays + (natOfDigits ip : ℤ) ≤ maxDays := by
      have h1 : epochDays = -25569 := by decide
      have h2 : maxDays = 2932896 := by decide
      rw [h1, h2]
      omega
    simp only [parse_date, hdata, hstrip, hser, hdrop, htake, if_true, hb,
      if_pos]
    rfl
  · intro ip fr hne hnef hdig hdigf
    have hsp : ∀ c ∈ ip ++ '.' :: fr, isPySpace c = false := by
      intro c hc
      rcases List.mem_append.mp hc with h | h
      · exact isPySpace_eq_false_of_isDigit (hdig c h)
      · rcases List.mem_cons.mp h with rfl | h
        · decide
        · exact isPySpace_eq_false_of_isDigit (hdigf c h)
    have hstrip : pyStrip (ip ++ '.' :: fr) = ip ++ '.' :: fr :=
      pyStrip_eq_self_of_all hsp
    have htake : (ip ++ '.' :: fr).takeWhile Char.isDigit = ip := by
      rw [List.takeWhile_append_of_pos (by simpa using hdig)]
      rw [List.takeWhile_cons_of_neg (by decide)]
      simp
    have hdrop : (ip ++ '.' :: fr).dropWhile Char.isDigit = '.' :: fr := by
      rw [List.dropWhile_append_of_pos (by simpa using hdig)]
      rw [List.dropWhile_cons_of_neg (by decide)]
    have hfr : fr.all Char.isDigit = true :=
      List.all_eq_true.mpr (by simpa using hdigf)
    have hser : serialMatch (ip ++ '.' :: fr) = true := by
      simp [serialMatch, htake, hdrop, hne, hnef, hfr]
    have hdata : (String.mk (ip ++ '.' :: fr)).data = ip ++ '.' :: fr := rfl
    simp only [parse_date, hdata, hstrip, hser, hdrop, if_true]
    rfl


theorem getLast?_space_free {l : List Char} (h : ∀ c ∈ l, c.isDigit = true) :
    ∀ c, l.getLast? = some c → isPySpace c = false :=
  fun c hc => isPySpace_eq_false_of_isDigit (h c (mem_of_getLast?_eq hc))

/-- Evaluation of `parse_date` on a `Q<digit><seps><2-4 digit year>`
string: the first quarter rule fires and the outcome is decided by the
quarter-to-month dictionary. -/
theorem parse_date_quarterQ_eval (cq dq : Char) (sep yrl : List Char)
    (hcq : cq = 'Q' ∨ cq = 'q') (hdq : dq.isDigit = true)
    (hsep : ∀ x ∈ sep, x = '-' ∨ x = ' ')
    (hne : yrl ≠ []) (hdig : ∀ c ∈ yrl, c.isDigit = true)
    (hlen2 : 2 ≤ yrl.length) (hlen4 : yrl.length ≤ 4) :
    parse_date (some (String.mk (cq :: dq :: (sep ++ yrl)))) =
      (match quarterMonth (dq.toNat - '0'.toNat) with
       | some mo =>
         .ok ⟨(if natOfDigits yrl < 100 then (natOfDigits yrl : ℤ) + 2000
               else (natOfDigits yrl : ℤ)), mo, 1⟩
       | none => .error .keyError) := by
  obtain ⟨y0, yt, rfl⟩ : ∃ y0 yt, yrl = y0 :: yt := by
    cases yrl with
    | nil => exact absurd rfl hne
    | cons a t => exact ⟨a, t, rfl⟩
  have hy0 : y0.isDigit = true := hdig y0 (List.mem_cons_self _ _)
  have hlast : (cq :: dq :: (sep ++ y0 :: yt)).getLast? = (y0 :: yt).getLast? := by
    have he : cq :: dq :: (sep ++ y0 :: yt) = ([cq, dq] ++ sep) ++ (y0 :: yt) := by
      simp
    rw [he, List.getLast?_append_of_ne_nil _ (by simp)]
  have hstrip : pyStrip (cq :: dq :: (sep ++ y0 :: yt)) =
      cq :: dq :: (sep ++ y0 :: yt) := by
    apply pyStrip_eq_self
    · intro c hc
      simp only [List.head?_cons, Option.some_inj] at hc
      subst hc
      rcases hcq with rfl | rfl <;> decide
    · intro c hc
      rw [hlast] at hc
      exact getLast?_space_free hdig c hc
  have hser : serialMatch (cq :: dq :: (sep ++ y0 :: yt)) = false := by
    apply serialMatch_false_of_head
    rcases hcq with rfl | rfl <;> decide
  have hsep2 : ∀ x ∈ sep, (fun ch => ch = '-' || ch = ' ') x = true := by
    intro x hx
    rcases hsep x hx with rfl | rfl <;> decide
  have hy0n : (decide (y0 = '-') || decide (y0 = ' ')) = false := by
    have h1 := ne_of_isDigit hy0 (x := '-') (by decide)
    have h2 := ne_of_isDigit hy0 (x := ' ') (by decide)
    simp [h1, h2]
  have hdropsep : (sep ++ y0 :: yt).dropWhile (fun ch => ch = '-' || ch = ' ') =
      y0 :: yt := by
    rw [List.dropWhile_append_of_pos hsep2]
    simp [List.dropWhile_cons, hy0n]
  have hcond : ((cq = 'Q' || cq = 'q') && dq.isDigit) = true := by
    rcases hcq with rfl | rfl <;> simp [hdq]
  have hall : (y0 :: yt).all Char.isDigit = true :=
    List.all_eq_true.mpr (by simpa using hdig)
  have hq : quarterQ (cq :: dq :: (sep ++ y0 :: yt)) =
      some (dq.toNat - Char.toNat '0', natOfDigits (y0 :: yt)) := by
    have hb2 : decide (2 ≤ (y0 :: yt).length) = true := decide_eq_true hlen2
    have hb4 : decide ((y0 :: yt).length ≤ 4) = true := decide_eq_true hlen4
    simp only [List.length_cons] at hlen2 hlen4
    simp [quarterQ, hdropsep, hcond, hall, hb2, hb4]
    omega
  have hdata : (String.mk (cq :: dq :: (sep ++ y0 :: yt))).data =
      cq :: dq :: (sep ++ y0 :: yt) := rfl
  simp only [parse_date, hdata, hstrip, hser, hq]
  rfl


/-- Evaluation of `parse_date` on a `Quarter <digit> <4-digit-year>`
string (arbitrary letter case, `\\s+` runs of whitespace): the second
quarter rule fires and the outcome is decided by the quarter-to-month
dictionary and the `datetime` year check. -/
theorem parse_date_quarterWord_eval
    (c0 c1 c2 c3 c4 c5 c6 dq : Char) (s1 s2 yrl : List Char)
    (h0 : c0 = 'q' ∨ c0 = 'Q') (h1 : c1 = 'u' ∨ c1 = 'U')
    (h2 : c2 = 'a' ∨ c2 = 'A') (h3 : c3 = 'r' ∨ c3 = 'R')
    (h4 : c4 = 't' ∨ c4 = 'T') (h5 : c5 = 'e' ∨ c5 = 'E')
    (h6 : c6 = 'r' ∨ c6 = 'R')
    (hs1 : s1 ≠ []) (hs1w : ∀ c ∈ s1, isPySpace c = true)
    (hs2 : s2 ≠ []) (hs2w : ∀ c ∈ s2, isPySpace c = true)
    (hdq : dq.isDigit = true)
    (hylen : yrl.length = 4) (hydig : ∀ c ∈ yrl, c.isDigit = true) :
    parse_date (some (String.mk
      (c0 :: c1 :: c2 :: c3 :: c4 :: c5 :: c6 :: (s1 ++ dq :: (s2 ++ yrl))))) =
      (match quarterMonth (dq.toNat - Char.toNat '0') with
       | some mo =>
         if 1 ≤ natOfDigits yrl then .ok ⟨(natOfDigits yrl : ℤ), mo, 1⟩
         else .error .invalidYear
       | none => .error .keyError) := by
  obtain ⟨y0, yt, rfl⟩ : ∃ y0 yt, yrl = y0 :: yt := by
    cases yrl with
    | nil => simp at hylen
    | cons a t => exact ⟨a, t, rfl⟩
  have hy0 : y0.isDigit = true := hydig y0 (List.mem_cons_self _ _)
  have hy0sp : isPySpace y0 = false := isPySpace_eq_false_of_isDigit hy0
  have hdqsp : isPySpace dq = false := isPySpace_eq_false_of_isDigit hdq
  have hlast : (c0 :: c1 :: c2 :: c3 :: c4 :: c5 :: c6 ::
      (s1 ++ dq :: (s2 ++ y0 :: yt))).getLast? = (y0 :: yt).getLast? := by
    have he : c0 :: c1 :: c2 :: c3 :: c4 :: c5 :: c6 ::
        (s1 ++ dq :: (s2 ++ y0 :: yt)) =
        ([c0, c1, c2, c3, c4, c5, c6] ++ s1 ++ dq :: s2) ++ (y0 :: yt) := by
      simp
    rw [he, List.getLast?_append_of_ne_nil _ (by simp)]
  have hstrip : pyStrip (c0 :: c1 :: c2 :: c3 :: c4 :: c5 :: c6 ::
      (s1 ++ dq :: (s2 ++ y0 :: yt))) =
      c0 :: c1 :: c2 :: c3 :: c4 :: c5 :: c6 ::
      (s1 ++ dq :: (s2 ++ y0 :: yt)) := by
    apply pyStrip_eq_self
    · intro c hc
      simp only [List.head?_cons, Option.some_inj] at hc
      subst hc
      rcases h0 with rfl | rfl <;> decide
    · intro c hc
      rw [hlast] at hc
      exact getLast?_space_free hydig c hc
  have hser : serialMatch (c0 :: c1 :: c2 :: c3 :: c4 :: c5 :: c6 ::
      (s1 ++ dq :: (s2 ++ y0 :: yt))) = false := by
    apply serialMatch_false_of_head
    rcases h0 with rfl | rfl <;> decide
  have hc1d : c1.isDigit = false := by
    rcases h1 with rfl | rfl <;> decide
  have hqq : quarterQ (c0 :: c1 :: c2 :: c3 :: c4 :: c5 :: c6 ::
      (s1 ++ dq :: (s2 ++ y0 :: yt))) = none := by
    simp [quarterQ, hc1d]
  have t0 : c0.toLower = 'q' := by rcases h0 with rfl | rfl <;> decide
  have t1 : c1.toLower = 'u' := by rcases h1 with rfl | rfl <;> decide
  have t2 : c2.toLower = 'a' := by rcases h2 with rfl | rfl <;> decide
  have t3 : c3.toLower = 'r' := by rcases h3 with rfl | rfl <;> decide
  have t4 : c4.toLower = 't' := by rcases h4 with rfl | rfl <;> decide
  have t5 : c5.toLower = 'e' := by rcases h5 with rfl | rfl <;> decide
  have t6 : c6.toLower = 'r' := by rcases h6 with rfl | rfl <;> decide
  have hdrop1 : (s1 ++ dq :: (s2 ++ y0 :: yt)).dropWhile isPySpace =
      dq :: (s2 ++ y0 :: yt) := by
    rw [List.dropWhile_append_of_pos (by simpa using hs1w)]
    simp [List.dropWhile_cons, hdqsp]
  have hdrop2 : (s2 ++ y0 :: yt).dropWhile isPySpace = y0 :: yt := by
    rw [List.dropWhile_append_of_pos (by simpa using hs2w)]
    simp [List.dropWhile_cons, hy0sp]
  have hs1pos : 1 ≤ s1.length := List.length_pos.mpr hs1
  have hs2pos : 1 ≤ s2.length := List.length_pos.mpr hs2
  have hall : (y0 :: yt).all Char.isDigit = true :=
    List.all_eq_true.mpr (by simpa using hydig)
  have hylen4 : (y0 :: yt).length = 4 := hylen
  have htk : (c0 :: c1 :: c2 :: c3 :: c4 :: c5 :: c6 ::
      (s1 ++ dq :: (s2 ++ y0 :: yt))).take 7 = [c0, c1, c2, c3, c4, c5, c6] := rfl
  have hdp : (c0 :: c1 :: c2 :: c3 :: c4 :: c5 :: c6 ::
      (s1 ++ dq :: (s2 ++ y0 :: yt))).drop 7 = s1 ++ dq :: (s2 ++ y0 :: yt) := rfl
  have hmap : [c0, c1, c2, c3, c4, c5, c6].map Char.toLower = "quarter".data := by
    simp [t0, t1, t2, t3, t4, t5, t6]
  have hlen7 : 7 ≤ (c0 :: c1 :: c2 :: c3 :: c4 :: c5 :: c6 ::
      (s1 ++ dq :: (s2 ++ y0 :: yt))).length := by
    simp
  have hlne1 : ¬ ((dq :: (s2 ++ y0 :: yt)).length =
      (s1 ++ dq :: (s2 ++ y0 :: yt)).length) := by
    simp only [List.length_cons, List.length_append]
    omega
  have hlne2 : ¬ ((y0 :: yt).length = (s2 ++ y0 :: yt).length) := by
    simp only [List.length_cons, List.length_append]
    omega
  have hqw : quarterWord (c0 :: c1 :: c2 :: c3 :: c4 :: c5 :: c6 ::
      (s1 ++ dq :: (s2 ++ y0 :: yt))) =
      some (dq.toNat - Char.toNat '0', natOfDigits (y0 :: yt)) := by
    simp only [quarterWord, htk, hdp, hmap, hdrop1, hdrop2]
    rw [if_pos ⟨trivial, hlen7⟩, if_neg hlne1]
    simp only [hdq, if_true, if_neg hlne2]
    simp [hall, hylen4]
  have hdata : (String.mk (c0 :: c1 :: c2 :: c3 :: c4 :: c5 :: c6 ::
      (s1 ++ dq :: (s2 ++ y0 :: yt)))).data =
      c0 :: c1 :: c2 :: c3 :: c4 :: c5 :: c6 ::
      (s1 ++ dq :: (s2 ++ y0 :: yt)) := rfl
  simp only [parse_date, hdata, hstrip, hser, hqq, hqw]
  simp


/-- **C7 (counterexample).** The claim admits `'/'` as a separator in the
`Q<digit>` quarter notation, but the source regex
`Q(\\d)[- ]*(\\d{2,4})` accepts only `'-'` and `' '`: `"Q1/24"` matches no
quarter rule (and no literal format) and is handed to the external
permissive parser, which has no quarter support — while `"Q1-24"` is
resolved by the quarter rule. -/
theorem parseDate_slash_separator_not_quarter :
    parse_date (some "Q1/24") = .genericParse "Q1/24" ∧
    parse_date (some "Q1-24") = .ok ⟨2024, 1, 1⟩ := by
  constructor <;> decide

/-- **C7 (amended).** `Q<digit><separators><2-4 digit year>` with `'-'`
or `' '` separators (the regex also admits an empty or repeated
separator run), case-insensitive, maps quarter 1/2/3/4 to the start of
January/April/July/October, with any parsed year value below 100 read as
`2000 + y`; `Quarter <digit> <4-digit-year>` (case-insensitive,
whitespace runs) takes the year literally (year at least 1); both
examples give January 1, 2024.  `'/'` is not accepted as a separator. -/
theorem parseDate_quarter_start_dates :
    (∀ (cq dq : Char) (sep yrl : List Char) (mo : ℕ),
      (cq = 'Q' ∨ cq = 'q') → dq.isDigit = true →
      quarterMonth (dq.toNat - Char.toNat '0') = some mo →
      (∀ x ∈ sep, x = '-' ∨ x = ' ') →
      yrl ≠ [] → (∀ c ∈ yrl, c.isDigit = true) →
      2 ≤ yrl.length → yrl.length ≤ 4 →
      parse_date (some (String.mk (cq :: dq :: (sep ++ yrl)))) =
        .ok ⟨(if natOfDigits yrl < 100 then (natOfDigits yrl : ℤ) + 2000
              else (natOfDigits yrl : ℤ)), mo, 1⟩) ∧
    (∀ (c0 c1 c2 c3 c4 c5 c6 dq : Char) (s1 s2 yrl : List Char) (mo : ℕ),
      (c0 = 'q' ∨ c0 = 'Q') → (c1 = 'u' ∨ c1 = 'U') → (c2 = 'a' ∨ c2 = 'A') →
      (c3 = 'r' ∨ c3 = 'R') → (c4 = 't' ∨ c4 = 'T') → (c5 = 'e' ∨ c5 = 'E') →
      (c6 = 'r' ∨ c6 = 'R') →
      s1 ≠ [] → (∀ c ∈ s1, isPySpace c = true) →
      s2 ≠ [] → (∀ c ∈ s2, isPySpace c = true) →
      dq.isDigit = true → quarterMonth (dq.toNat - Char.toNat '0') = some mo →
      yrl.length = 4 → (∀ c ∈ yrl, c.isDigit = true) → 1 ≤ natOfDigits yrl →
      parse_date (some (String.mk (c0 :: c1 :: c2 :: c3 :: c4 :: c5 :: c6 ::
        (s1 ++ dq :: (s2 ++ yrl))))) = .ok ⟨(natOfDigits yrl : ℤ), mo, 1⟩) ∧
    parse_date (some "Q1-24") = .ok ⟨2024, 1, 1⟩ ∧
    parse_date (some "Quarter 1 2024") = .ok ⟨2024, 1, 1⟩ := by
  refine ⟨?_, ?_, by decide, by decide⟩
  · intro cq dq sep yrl mo hcq hdq hmo hsep hne hdig hl2 hl4
    rw [parse_date_quarterQ_eval cq dq sep yrl hcq hdq hsep hne hdig hl2 hl4,
      hmo]
  · intro c0 c1 c2 c3 c4 c5 c6 dq s1 s2 yrl mo h0 h1 h2 h3 h4 h5 h6 hs1 hs1w
      hs2 hs2w hdq hmo hylen hydig hy1
    rw [parse_date_quarterWord_eval c0 c1 c2 c3 c4 c5 c6 dq s1 s2 yrl h0 h1 h2
      h3 h4 h5 h6 hs1 hs1w hs2 hs2w hdq hylen hydig, hmo]
    simp [hy1]

theorem parseDate_quarter_start_dates_witness :
    ('Q' = 'Q' ∨ 'Q' = 'q') ∧
    parse_date (some (String.mk ('Q' :: '2' :: (['-'] ++ ['2', '5'])))) =
      .ok ⟨2025, 4, 1⟩ := by
  have h := parseDate_quarter_start_dates.1 'Q' '2' ['-'] ['2', '5'] 4
    (Or.inl rfl) (by decide) (by decide) (by decide) (by decide) (by decide)
    (by decide) (by decide)
  exact ⟨Or.inl rfl, by rw [h]; decide⟩

/-- **C10.** Any quarter-notation input whose quarter digit is outside
1–4 hits the dictionary `{1: 1, 2: 4, 3: 7, 4: 10}` with a missing key:
`parse_date` stops with the (uncaught) `KeyError`, an error kind outside
the documented `InvalidDate`/`NullValue` vocabulary, instead of falling
through to the later date rules. -/
theorem parseDate_bad_quarter_digit_keyerror :
    (∀ q : ℕ, quarterMonth q = none ↔ (q ≠ 1 ∧ q ≠ 2 ∧ q ≠ 3 ∧ q ≠ 4)) ∧
    (∀ (cq dq : Char) (sep yrl : List Char),
      (cq = 'Q' ∨ cq = 'q') → dq.isDigit = true →
      quarterMonth (dq.toNat - Char.toNat '0') = none →
      (∀ x ∈ sep, x = '-' ∨ x = ' ') →
      yrl ≠ [] → (∀ c ∈ yrl, c.isDigit = true) →
      2 ≤ yrl.length → yrl.length ≤ 4 →
      parse_date (some (String.mk (cq :: dq :: (sep ++ yrl)))) =
        .error .keyError) ∧
    (∀ (c0 c1 c2 c3 c4 c5 c6 dq : Char) (s1 s2 yrl : List Char),
      (c0 = 'q' ∨ c0 = 'Q') → (c1 = 'u' ∨ c1 = 'U') → (c2 = 'a' ∨ c2 = 'A') →
      (c3 = 'r' ∨ c3 = 'R') → (c4 = 't' ∨ c4 = 'T') → (c5 = 'e' ∨ c5 = 'E') →
      (c6 = 'r' ∨ c6 = 'R') →
      s1 ≠ [] → (∀ c ∈ s1, isPySpace c = true) →
      s2 ≠ [] → (∀ c ∈ s2, isPySpace c = true) →
      dq.isDigit = true → quarterMonth (dq.toNat - Char.toNat '0') = none →
      yrl.length = 4 → (∀ c ∈ yrl, c.isDigit = true) →
      parse_date (some (String.mk (c0 :: c1 :: c2 :: c3 :: c4 :: c5 :: c6 ::
        (s1 ++ dq :: (s2 ++ yrl))))) = .error .keyError) ∧
    parse_date (some "Q5-24") = .error .keyError ∧
    parse_date (some "Quarter 7 2024") = .error .keyError := by
  refine ⟨?_, ?_, ?_, by decide, by decide⟩
  · intro q
    unfold quarterMonth
    split_ifs <;> simp_all
  · intro cq dq sep yrl hcq hdq hmo hsep hne hdig hl2 hl4
    rw [parse_date_quarterQ_eval cq dq sep yrl hcq hdq hsep hne hdig hl2 hl4,
      hmo]
  · intro c0 c1 c2 c3 c4 c5 c6 dq s1 s2 yrl h0 h1 h2 h3 h4 h5 h6 hs1 hs1w
      hs2 hs2w hdq hmo hylen hydig
    rw [parse_date_quarterWord_eval c0 c1 c2 c3 c4 c5 c6 dq s1 s2 yrl h0 h1 h2
      h3 h4 h5 h6 hs1 hs1w hs2 hs2w hdq hylen hydig, hmo]

theorem parseDate_bad_quarter_digit_keyerror_witness :
    (('9' : Char).isDigit = true) ∧
    parse_date (some (String.mk ('q' :: '9' :: ([' '] ++ ['9', '9'])))) =
      .error .keyError := by
  have h := parseDate_bad_quarter_digit_keyerror.2.1 'q' '9' [' '] ['9', '9']
    (Or.inr rfl) (by decide) (by decide) (by decide) (by decide) (by decide)
    (by decide) (by decide)
  exact ⟨by decide, h⟩


theorem mem_dropWhile_of_mem {p : Char → Bool} {a : Char} :
    ∀ {l : List Char}, a ∈ l → p a = false → a ∈ l.dropWhile p
  | [], h, _ => absurd h (by simp)
  | c :: t, h, hp => by
    rw [List.dropWhile_cons]
    split
    · rename_i hc
      rcases List.mem_cons.mp h with rfl | h2
      · rw [hp] at hc; cases hc
      · exact mem_dropWhile_of_mem h2 hp
    · exact h

theorem suffixFinish_eq_none_of_comma (sgn d1 dfrac : List Char)
    {rest : List Char} (h : ',' ∈ rest) :
    suffixFinish sgn d1 dfrac rest = none := by
  unfold suffixFinish
  have h3 : ',' ∈ rest.dropWhile isPySpace := mem_dropWhile_of_mem h (by decide)
  cases hr : rest.dropWhile isPySpace with
  | nil => simp_all
  | cons c t =>
    cases t with
    | nil =>
      rw [hr] at h3
      have hc : c = ',' := by
        rcases List.mem_cons.mp h3 with hh | hh
        · exact hh.symm
        · cases hh
      subst hc
      rfl
    | cons d u => rfl

theorem suffixCore_eq_none_of_comma (sgn : List Char) {r0 : List Char}
    (hmem : ',' ∈ r0) : suffixCore sgn r0 = none := by
  unfold suffixCore
  by_cases hd : (r0.takeWhile Char.isDigit).isEmpty
  · simp [hd]
  · have hcr1 : ',' ∈ r0.dropWhile Char.isDigit := by
      have hsplit := List.takeWhile_append_dropWhile Char.isDigit r0
      rw [← hsplit] at hmem
      rcases List.mem_append.mp hmem with h | h
      · have h2 := List.mem_takeWhile_imp h
        simp at h2
      · exact h
    rw [if_neg hd]
    split
    · rename_i t heq
      rw [heq] at hcr1
      have hct : ',' ∈ t := by
        rcases List.mem_cons.mp hcr1 with hh | hh
        · exact absurd hh (by decide)
        · exact hh
      by_cases hf : (t.takeWhile Char.isDigit).isEmpty
      · rw [if_pos hf]
        apply suffixFinish_eq_none_of_comma
        rw [heq]
        exact hcr1
      · rw [if_neg hf]
        apply suffixFinish_eq_none_of_comma
        exact mem_dropWhile_of_mem hct (by decide)
    · apply suffixFinish_eq_none_of_comma
      exact hcr1

theorem suffixMatch_eq_none_of_comma : ∀ {s : List Char}, ',' ∈ s →
    suffixMatch s = none
  | [], h => absurd h (by simp)
  | c :: t, h => by
    show (if (c = '+' || c = '-') = true then suffixCore [c] t
          else suffixCore [] (c :: t)) = none
    by_cases hc : (c = '+' || c = '-') = true
    · rw [if_pos hc]
      apply suffixCore_eq_none_of_comma
      rcases List.mem_cons.mp h with hh | hh
      · simp only [Bool.or_eq_true, decide_eq_true_eq] at hc
        rcases hc with rfl | rfl <;> exact absurd hh (by decide)
      · exact hh
    · rw [if_neg hc]
      exact suffixCore_eq_none_of_comma [] h

/-- **C2.** With both separators present in the cleaned string, the
positions of the last dot and last comma (`str.rfind`) decide the
convention: dot last strips the commas (US/Indian grouping), comma last
strips the dots and promotes the commas (European); the remainder of the
pipeline (multi-dot repair, `Decimal` parse, sign) is unchanged.  The
three cited examples evaluate accordingly. -/
theorem parseAmount_separator_disambiguation :
    (∀ v : String, '.' ∈ cleanedAmount v → ',' ∈ cleanedAmount v →
      (pyRfind '.' (cleanedAmount v) > pyRfind ',' (cleanedAmount v) →
        parse_amount (some v) = amountFinish (stripSign (pyStrip v.data)).1
          (dotRepair ((cleanedAmount v).filter (· ≠ ',')))) ∧
      (pyRfind ',' (cleanedAmount v) > pyRfind '.' (cleanedAmount v) →
        parse_amount (some v) = amountFinish (stripSign (pyStrip v.data)).1
          (dotRepair (((cleanedAmount v).filter (· ≠ '.')).map
            fun c => if c = ',' then '.' else c)))) ∧
    parse_amount (some "$1,234.56") = .ok (.num (123456 / 100 : ℚ)) ∧
    parse_amount (some "€1.234,56") = .ok (.num (123456 / 100 : ℚ)) ∧
    parse_amount (some "₹1,23,456.78") = .ok (.num (12345678 / 100 : ℚ)) := by
  refine ⟨?_, by decide, by decide, by decide⟩
  intro v hdot hcomma
  have hcs : ',' ∈ (stripSign (pyStrip v.data)).2 :=
    List.mem_of_mem_filter hcomma
  have hsuf : suffixMatch (stripSign (pyStrip v.data)).2 = none :=
    suffixMatch_eq_none_of_comma hcs
  have hca : amountClean (stripSign (pyStrip v.data)).2 = cleanedAmount v := rfl
  constructor
  · intro hgt
    simp only [parse_amount, hsuf, hca]
    congr 1
    unfold regionalFix
    rw [if_pos ⟨hdot, hcomma⟩, if_pos hgt]
  · intro hgt
    simp only [parse_amount, hsuf, hca]
    congr 1
    unfold regionalFix
    rw [if_pos ⟨hdot, hcomma⟩, if_neg (by omega)]

theorem parseAmount_separator_disambiguation_witness :
    (',' ∈ cleanedAmount "1.2,3") ∧
    parse_amount (some "1.2,3") = amountFinish (stripSign (pyStrip "1.2,3".data)).1
      (dotRepair (((cleanedAmount "1.2,3").filter (· ≠ '.')).map
        fun c => if c = ',' then '.' else c)) := by
  have h := ((parseAmount_separator_disambiguation.1 "1.2,3" (by decide)
    (by decide)).2) (by decide)
  exact ⟨by decide, h⟩

/-- **C4.** The sign is decided by three mutually exclusive surface
forms, checked in order: parentheses wrapping, then a trailing minus,
then a leading minus, with positive as the default; the two cited
examples parse to `-1234.56`. -/
theorem parseAmount_sign_rules :
    (∀ s : List Char,
      (s.head? = some '(' ∧ s.getLast? = some ')' →
        stripSign s = (-1, pyStrip ((s.drop 1).dropLast))) ∧
      (¬(s.head? = some '(' ∧ s.getLast? = some ')') → s.getLast? = some '-' →
        stripSign s = (-1, pyStrip s.dropLast)) ∧
      (¬(s.head? = some '(' ∧ s.getLast? = some ')') → s.getLast? ≠ some '-' →
        s.head? = some '-' → stripSign s = (-1, pyStrip (s.drop 1))) ∧
      (¬(s.head? = some '(' ∧ s.getLast? = some ')') → s.getLast? ≠ some '-' →
        s.head? ≠ some '-' → stripSign s = (1, s))) ∧
    parse_amount (some "(1,234.56)") = .ok (.num (-(123456 / 100) : ℚ)) ∧
    parse_amount (some "1234.56-") = .ok (.num (-(123456 / 100) : ℚ)) := by
  refine ⟨?_, by decide, by decide⟩
  intro s
  refine ⟨?_, ?_, ?_, ?_⟩
  · intro h
    unfold stripSign
    rw [if_pos h]
  · intro h hm
    unfold stripSign
    rw [if_neg h, if_pos hm]
  · intro h hm hh
    unfold stripSign
    rw [if_neg h, if_neg hm, if_pos hh]
  · intro h hm hh
    unfold stripSign
    rw [if_neg h, if_neg hm, if_neg hh]

theorem parseAmount_sign_rules_witness :
    (("(7)".data.head? = some '(' ∧ "(7)".data.getLast? = some ')') ∧
      stripSign "(7)".data = (-1, pyStrip (("(7)".data.drop 1).dropLast))) ∧
    stripSign "8".data = (1, "8".data) := by
  refine ⟨⟨⟨rfl, rfl⟩, (parseAmount_sign_rules.1 "(7)".data).1 ⟨rfl, rfl⟩⟩, ?_⟩
  exact (parseAmount_sign_rules.1 "8".data).2.2.2 (by decide) (by decide)
    (by decide)


theorem toLower_eq_self_of_isDigit {c : Char} (h : c.isDigit = true) :
    c.toLower = c := by
  simp only [Char.isDigit, Bool.and_eq_true, decide_eq_true_eq] at h
  have h2 : c.toNat ≤ 57 := UInt32.toNat_le_of_le (by decide) h.2
  unfold Char.toLower
  rw [if_neg (by omega)]

theorem suffixMult_char_facts {c : Char} {m : ℚ} (h : suffixMult c = some m) :
    c.isDigit = false ∧ isPySpace c = false ∧ c ≠ '.' ∧ c ≠ '+' ∧ c ≠ '-' := by
  unfold suffixMult at h
  split_ifs at h with g1 g2 g3
  · simp only [Bool.or_eq_true, decide_eq_true_eq] at g1
    rcases g1 with rfl | rfl <;>
      exact ⟨by decide, by decide, by decide, by decide, by decide⟩
  · simp only [Bool.or_eq_true, decide_eq_true_eq] at g2
    rcases g2 with rfl | rfl <;>
      exact ⟨by decide, by decide, by decide, by decide, by decide⟩
  · simp only [Bool.or_eq_true, decide_eq_true_eq] at g3
    rcases g3 with rfl | rfl <;>
      exact ⟨by decide, by decide, by decide, by decide, by decide⟩

theorem pyDecSign_eq_of_head {a : Char} {t : List Char}
    (h1 : a ≠ '+') (h2 : a ≠ '-') : pyDecSign (a :: t) = (1, a :: t) := by
  unfold pyDecSign
  split
  · rename_i u heq
    injection heq with ha _
    exact absurd ha h1
  · rename_i u heq
    injection heq with ha _
    exact absurd ha h2
  · rfl

theorem parseDecNumeric_digits_dot_digits {d1 d2 : List Char}
    (h1 : d1 ≠ []) (hd1 : ∀ x ∈ d1, x.isDigit = true)
    (hd2 : ∀ x ∈ d2, x.isDigit = true) :
    parseDecNumeric 1 (d1 ++ '.' :: d2) = some (.num (decVal d1 d2)) := by
  have htake : (d1 ++ '.' :: d2).takeWhile Char.isDigit = d1 := by
    rw [List.takeWhile_append_of_pos (by simpa using hd1),
      List.takeWhile_cons_of_neg (by decide)]
    simp
  have hdrop : (d1 ++ '.' :: d2).dropWhile Char.isDigit = '.' :: d2 := by
    rw [List.dropWhile_append_of_pos (by simpa using hd1),
      List.dropWhile_cons_of_neg (by decide)]
  have htd2 : d2.takeWhile Char.isDigit = d2 :=
    List.takeWhile_eq_self_iff.mpr (by simpa using hd2)
  have hdd2 : d2.dropWhile Char.isDigit = [] :=
    List.dropWhile_eq_nil_iff.mpr (by simpa using hd2)
  have hie : d1.isEmpty = false := by
    cases d1 with
    | nil => exact absurd rfl h1
    | cons a t => rfl
  simp only [parseDecNumeric, htake, hdrop, htd2, hdd2, hie, List.head?_cons]
  simp [one_mul]

theorem parseDecNumeric_digits {d1 : List Char}
    (h1 : d1 ≠ []) (hd1 : ∀ x ∈ d1, x.isDigit = true) :
    parseDecNumeric 1 d1 = some (.num (decVal d1 [])) := by
  have htake : d1.takeWhile Char.isDigit = d1 :=
    List.takeWhile_eq_self_iff.mpr (by simpa using hd1)
  have hdrop : d1.dropWhile Char.isDigit = [] :=
    List.dropWhile_eq_nil_iff.mpr (by simpa using hd1)
  have hie : d1.isEmpty = false := by
    cases d1 with
    | nil => exact absurd rfl h1
    | cons a t => rfl
  simp only [parseDecNumeric, htake, hdrop, hie]
  simp [one_mul]


theorem pyDecimal_eq_parseDecNumeric {a : Char} {X : List Char}
    (ha : a.isDigit = true)
    (hl : ∀ x ∈ a :: X, x.isDigit = true ∨ x = '.') :
    pyDecimal (a :: X) = parseDecNumeric 1 (a :: X) := by
  have hsp : ∀ x ∈ a :: X, isPySpace x = false := by
    intro x hx
    rcases hl x hx with hd | rfl
    · exact isPySpace_eq_false_of_isDigit hd
    · decide
  have hstrip : pyStrip (a :: X) = a :: X := pyStrip_eq_self_of_all hsp
  have hfil : (a :: X).filter (· ≠ '_') = a :: X := by
    rw [List.filter_eq_self]
    intro x hx
    rcases hl x hx with hd | rfl
    · simpa using ne_of_isDigit hd (by decide)
    · decide
  have hsgn : pyDecSign (a :: X) = (1, a :: X) :=
    pyDecSign_eq_of_head (ne_of_isDigit ha (by decide))
      (ne_of_isDigit ha (by decide))
  have ta : a.toLower = a := toLower_eq_self_of_isDigit ha
  have hmap : (a :: X).map Char.toLower = a :: X.map Char.toLower := by
    simp [ta]
  have hne1 : a :: X.map Char.toLower ≠ "inf".data := by
    intro heq
    rw [show "inf".data = 'i' :: "nf".data from rfl] at heq
    injection heq with hh _
    exact ne_of_isDigit ha (by decide) hh
  have hne2 : a :: X.map Char.toLower ≠ "infinity".data := by
    intro heq
    rw [show "infinity".data = 'i' :: "nfinity".data from rfl] at heq
    injection heq with hh _
    exact ne_of_isDigit ha (by decide) hh
  have hne3 : (a :: X.map Char.toLower).take 3 ≠ "nan".data := by
    intro heq
    rw [show (a :: X.map Char.toLower).take 3 =
        a :: (X.map Char.toLower).take 2 from rfl] at heq
    rw [show "nan".data = 'n' :: "an".data from rfl] at heq
    injection heq with hh _
    exact ne_of_isDigit ha (by decide) hh
  have hne4 : (a :: X.map Char.toLower).take 4 ≠ "snan".data := by
    intro heq
    rw [show (a :: X.map Char.toLower).take 4 =
        a :: (X.map Char.toLower).take 3 from rfl] at heq
    rw [show "snan".data = 's' :: "nan".data from rfl] at heq
    injection heq with hh _
    exact ne_of_isDigit ha (by decide) hh
  have hb1 : (decide (a :: List.map Char.toLower X = "inf".data) ||
      decide (a :: List.map Char.toLower X = "infinity".data)) = false := by
    rw [decide_eq_false hne1, decide_eq_false hne2]
    rfl
  have hb2 : decide ((a :: List.map Char.toLower X).take 3 = "nan".data) = false :=
    decide_eq_false hne3
  have hb3 : decide ((a :: List.map Char.toLower X).take 4 = "snan".data) = false :=
    decide_eq_false hne4
  simp only [pyDecimal, hstrip, hfil, hsgn, hmap]
  rw [if_neg (by rw [hb1]; simp)]
  rw [if_neg (by rw [hb2]; simp)]
  rw [if_neg (by rw [hb3]; simp)]

theorem pyDecimal_digits_dot_digits {d1 d2 : List Char}
    (h1 : d1 ≠ []) (hd1 : ∀ x ∈ d1, x.isDigit = true)
    (hd2 : ∀ x ∈ d2, x.isDigit = true) :
    pyDecimal (d1 ++ '.' :: d2) = some (.num (decVal d1 d2)) := by
  obtain ⟨a, d1t, rfl⟩ : ∃ a t, d1 = a :: t := by
    cases d1 with
    | nil => exact absurd rfl h1
    | cons a t => exact ⟨a, t, rfl⟩
  have ha : a.isDigit = true := hd1 a (List.mem_cons_self _ _)
  have hform : (a :: d1t) ++ '.' :: d2 = a :: (d1t ++ '.' :: d2) := rfl
  rw [hform, pyDecimal_eq_parseDecNumeric ha ?hl, ← hform,
    parseDecNumeric_digits_dot_digits h1 hd1 hd2]
  case hl =>
    intro x hx
    rw [← hform] at hx
    rcases List.mem_append.mp hx with hxx | hxx
    · exact Or.inl (hd1 x hxx)
    · rcases List.mem_cons.mp hxx with rfl | hxx
      · exact Or.inr rfl
      · exact Or.inl (hd2 x hxx)

theorem pyDecimal_digits {d1 : List Char}
    (h1 : d1 ≠ []) (hd1 : ∀ x ∈ d1, x.isDigit = true) :
    pyDecimal d1 = some (.num (decVal d1 [])) := by
  obtain ⟨a, d1t, rfl⟩ : ∃ a t, d1 = a :: t := by
    cases d1 with
    | nil => exact absurd rfl h1
    | cons a t => exact ⟨a, t, rfl⟩
  have ha : a.isDigit = true := hd1 a (List.mem_cons_self _ _)
  rw [pyDecimal_eq_parseDecNumeric ha
    (fun x hx => Or.inl (hd1 x hx)), parseDecNumeric_digits h1 hd1]


theorem suffixFinish_single {d1 dfrac : List Char} {c : Char} {m : ℚ}
    (hm : suffixMult c = some m) :
    suffixFinish [] d1 dfrac [c] =
      (pyDecimal (d1 ++ dfrac)).map (PyDec.mulRat m) := by
  obtain ⟨_, hcs, _, _, _⟩ := suffixMult_char_facts hm
  unfold suffixFinish
  rw [show ([c] : List Char).dropWhile isPySpace = [c] by
    simp [List.dropWhile_cons, hcs]]
  show (match suffixMult c with
        | some m => Option.map (PyDec.mulRat m) (pyDecimal ([] ++ d1 ++ dfrac))
        | none => none) = Option.map (PyDec.mulRat m) (pyDecimal (d1 ++ dfrac))
  rw [hm]
  rfl

theorem suffixCore_eval_frac {d1 d2 : List Char} {c : Char} {m : ℚ}
    (h1 : d1 ≠ []) (hd1 : ∀ x ∈ d1, x.isDigit = true)
    (h2 : d2 ≠ []) (hd2 : ∀ x ∈ d2, x.isDigit = true)
    (hm : suffixMult c = some m) :
    suffixCore [] (d1 ++ '.' :: (d2 ++ [c])) =
      some (.num (m * decVal d1 d2)) := by
  obtain ⟨hcd, hcs, hcdot, _, _⟩ := suffixMult_char_facts hm
  have htk : (d1 ++ '.' :: (d2 ++ [c])).takeWhile Char.isDigit = d1 := by
    rw [List.takeWhile_append_of_pos (by simpa using hd1),
      List.takeWhile_cons_of_neg (by decide)]
    simp
  have hdw : (d1 ++ '.' :: (d2 ++ [c])).dropWhile Char.isDigit =
      '.' :: (d2 ++ [c]) := by
    rw [List.dropWhile_append_of_pos (by simpa using hd1),
      List.dropWhile_cons_of_neg (by decide)]
  have htk2 : (d2 ++ [c]).takeWhile Char.isDigit = d2 := by
    rw [List.takeWhile_append_of_pos (by simpa using hd2),
      List.takeWhile_cons_of_neg (by simp [hcd])]
    simp
  have hdw2 : (d2 ++ [c]).dropWhile Char.isDigit = [c] := by
    rw [List.dropWhile_append_of_pos (by simpa using hd2),
      List.dropWhile_cons_of_neg (by simp [hcd])]
  have hie : d1.isEmpty = false := by
    cases d1 with
    | nil => exact absurd rfl h1
    | cons a t => rfl
  have hfe : d2.isEmpty = false := by
    cases d2 with
    | nil => exact absurd rfl h2
    | cons a t => rfl
  simp only [suffixCore, htk, hdw, htk2, hdw2, hie, hfe]
  simp only [Bool.false_eq_true, if_false]
  rw [suffixFinish_single hm, pyDecimal_digits_dot_digits h1 hd1 hd2]
  rfl

theorem suffixCore_eval_nofrac {d1 : List Char} {c : Char} {m : ℚ}
    (h1 : d1 ≠ []) (hd1 : ∀ x ∈ d1, x.isDigit = true)
    (hm : suffixMult c = some m) :
    suffixCore [] (d1 ++ [c]) = some (.num (m * decVal d1 [])) := by
  obtain ⟨hcd, hcs, hcdot, _, _⟩ := suffixMult_char_facts hm
  have htk : (d1 ++ [c]).takeWhile Char.isDigit = d1 := by
    rw [List.takeWhile_append_of_pos (by simpa using hd1),
      List.takeWhile_cons_of_neg (by simp [hcd])]
    simp
  have hdw : (d1 ++ [c]).dropWhile Char.isDigit = [c] := by
    rw [List.dropWhile_append_of_pos (by simpa using hd1),
      List.dropWhile_cons_of_neg (by simp [hcd])]
  have hie : d1.isEmpty = false := by
    cases d1 with
    | nil => exact absurd rfl h1
    | cons a t => rfl
  simp only [suffixCore, htk, hdw, hie]
  simp only [Bool.false_eq_true, if_false]
  split
  · rename_i t heq
    injection heq with hh _
    exact absurd hh hcdot
  · rw [suffixFinish_single hm, List.append_nil, pyDecimal_digits h1 hd1]
    rfl


/-- **C5.** A sign-stripped string of the exact shape
`<digits>[.<digits>]<K|M|B>` (case-insensitive) is resolved by the
abbreviation shortcut: the decimal value of the number multiplied by
10^3 / 10^6 / 10^9 is returned immediately, bypassing the separator
disambiguation; `parse_amount "1.2K" = 1200` and
`parse_amount "2.5M" = 2500000`. -/
theorem parseAmount_magnitude_suffix :
    (∀ (v : String) (d1 d2 : List Char) (c : Char) (m : ℚ),
      d1 ≠ [] → (∀ x ∈ d1, x.isDigit = true) →
      d2 ≠ [] → (∀ x ∈ d2, x.isDigit = true) →
      suffixMult c = some m →
      (stripSign (pyStrip v.data)).2 = d1 ++ '.' :: (d2 ++ [c]) →
      parse_amount (some v) = .ok (.num (m * decVal d1 d2))) ∧
    (∀ (v : String) (d1 : List Char) (c : Char) (m : ℚ),
      d1 ≠ [] → (∀ x ∈ d1, x.isDigit = true) →
      suffixMult c = some m →
      (stripSign (pyStrip v.data)).2 = d1 ++ [c] →
      parse_amount (some v) = .ok (.num (m * decVal d1 []))) ∧
    parse_amount (some "1.2K") = .ok (.num 1200) ∧
    parse_amount (some "2.5M") = .ok (.num 2500000) := by
  refine ⟨?_, ?_, by decide, by decide⟩
  · intro v d1 d2 c m h1 hd1 h2 hd2 hm hss
    obtain ⟨a, d1t, rfl⟩ : ∃ a t, d1 = a :: t := by
      cases d1 with
      | nil => exact absurd rfl h1
      | cons a t => exact ⟨a, t, rfl⟩
    have ha : a.isDigit = true := hd1 a (List.mem_cons_self _ _)
    have hc1 : decide (a = '+') = false :=
      decide_eq_false (ne_of_isDigit ha (by decide))
    have hc2 : decide (a = '-') = false :=
      decide_eq_false (ne_of_isDigit ha (by decide))
    have hsm : suffixMatch ((a :: d1t) ++ '.' :: (d2 ++ [c])) =
        suffixCore [] ((a :: d1t) ++ '.' :: (d2 ++ [c])) := by
      show (if (a = '+' || a = '-') = true then
          suffixCore [a] (d1t ++ '.' :: (d2 ++ [c]))
        else suffixCore [] (a :: (d1t ++ '.' :: (d2 ++ [c])))) =
          suffixCore [] ((a :: d1t) ++ '.' :: (d2 ++ [c]))
      rw [if_neg (by rw [hc1, hc2]; simp)]
      rfl
    simp only [parse_amount, hss, hsm,
      suffixCore_eval_frac h1 hd1 h2 hd2 hm]
  · intro v d1 c m h1 hd1 hm hss
    obtain ⟨a, d1t, rfl⟩ : ∃ a t, d1 = a :: t := by
      cases d1 with
      | nil => exact absurd rfl h1
      | cons a t => exact ⟨a, t, rfl⟩
    have ha : a.isDigit = true := hd1 a (List.mem_cons_self _ _)
    have hc1 : decide (a = '+') = false :=
      decide_eq_false (ne_of_isDigit ha (by decide))
    have hc2 : decide (a = '-') = false :=
      decide_eq_false (ne_of_isDigit ha (by decide))
    have hsm : suffixMatch ((a :: d1t) ++ [c]) =
        suffixCore [] ((a :: d1t) ++ [c]) := by
      show (if (a = '+' || a = '-') = true then
          suffixCore [a] (d1t ++ [c])
        else suffixCore [] (a :: (d1t ++ [c]))) =
          suffixCore [] ((a :: d1t) ++ [c])
      rw [if_neg (by rw [hc1, hc2]; simp)]
      rfl
    simp only [parse_amount, hss, hsm, suffixCore_eval_nofrac h1 hd1 hm]

theorem parseAmount_magnitude_suffix_witness :
    suffixMult 'K' = some 1000 ∧
    parse_amount (some "1.2K") = .ok (.num (1000 * decVal ['1'] ['2'])) := by
  have h := parseAmount_magnitude_suffix.1 "1.2K" ['1'] ['2'] 'K' 1000
    (by decide) (by decide) (by decide) (by decide) (by decide) (by decide)
  exact ⟨by decide, h⟩

/-- **C8.** The numeric attempt of `TypeDetector` strips currency
symbols, commas and whitespace, rewrites `(1234)` to `-1234`, accepts
K/M/B tokens, confidence is the fraction of parsed values and the column
is numeric iff that fraction reaches 0.6 — but the trailing-minus rule is
broken: `re.sub(r"(\\d)-$", r"-\\1", ...)` turns `1234-` into `123-4`
(moving only the final digit), which then fails to parse, so a
trailing-minus column is classified as text with confidence 0. -/
theorem tryNumber_trailing_minus_broken :
    tdClean "1234-".data = "123-4".data ∧
    try_number ["1234-"] = (false, 0) ∧
    try_number ["(1,234)"] = (true, 1) ∧
    try_number ["$ 1.5", "1.2K", "x"] = (true, 2 / 3) ∧
    detect (fun _ => (false, 0)) [some "1234-"] = ("str", 1) := by
  refine ⟨by decide, by decide, by decide, by decide, by decide⟩

/-- **C9.** A column consisting solely of null cells — including the
empty column — is classified as text with confidence exactly 1,
whatever the (pandas-backed) temporal attempt would do. -/
theorem detect_all_null_is_text (tryDatetime : List String → Bool × ℚ)
    (col : List (Option String)) (h : ∀ x ∈ col, x = none) :
    detect tryDatetime col = ("str", 1) := by
  have hfm : col.filterMap id = [] := by
    rw [List.filterMap_eq_nil_iff]
    intro a ha
    rw [h a ha]
    rfl
  simp [detect, hfm]

theorem detect_all_null_is_text_witness :
    (∀ x ∈ ([none, none] : List (Option String)), x = none) ∧
    detect (fun _ => (false, 0)) [none, none] = ("str", 1) := by
  have hh : ∀ x ∈ ([none, none] : List (Option String)), x = none := by
    intro x hx
    rcases List.mem_cons.mp hx with rfl | hx2
    · rfl
    · rcases List.mem_cons.mp hx2 with rfl | hx3
      · rfl
      · cases hx3
  exact ⟨hh, detect_all_null_is_text _ _ hh⟩


theorem parseDate_excel_serial_from_epoch_witness :
    ("5".data ≠ ([] : List Char)) ∧
    parse_date (some (String.mk "5".data)) =
      .ok (civilFromDays (daysFromCivil 1899 12 30 +
        (natOfDigits "5".data : ℤ))) := by
  have h := parseDate_excel_serial_from_epoch.1 "5".data (by decide)
    (by decide) (by decide)
  exact ⟨by decide, h⟩

end FDP
